import Mathlib

/-!
# Verification of the netbird-terraformer generation core

Shallow embedding of the reference-resolution and code-generation core of the
netbird-terraformer tool: the name sanitizer and string escaper (`lib/utils.go`),
the reference builder, and the per-kind resource collectors
(`resources/groups.go`, `resources/routes.go`, the policies handler, and the
legacy generator variant in `generators.go`).

Strings are modelled through their character lists (`String.data`); Go's
`strings.ReplaceAll` with a one-character pattern is a `map` (or a `filter`
when the replacement is empty), and `strings.ToLower` acts on each character;
its action on ASCII letters is exactly `Char.toLower` (adding 32 to the code
point of `A`–`Z`), which is the only action the claims exercise.
-/

namespace NetbirdTf

/-! ## lib/utils.go : SanitizeResourceName -/

/-- Models `strings.ReplaceAll(s, a, b)` for one-character `a`, `b`:
every occurrence of `a` becomes `b`. -/
def replaceAllChar (a b : Char) (cs : List Char) : List Char :=
  cs.map fun c => if c == a then b else c

/-- Models `strings.ReplaceAll(s, a, "")` for a one-character `a`:
every occurrence of `a` is deleted. -/
def removeAllChar (a : Char) (cs : List Char) : List Char :=
  cs.filter fun c => c != a

/-- Models `strings.Contains(s, "__")`. -/
def hasDD : List Char → Bool
  | [] => false
  | [_] => false
  | c1 :: c2 :: r => (c1 == '_' && c2 == '_') || hasDD (c2 :: r)

/-- Models one pass of `strings.ReplaceAll(s, "__", "_")`: non-overlapping
occurrences are replaced left to right, and scanning resumes after the
replaced occurrence. -/
def replaceDD : List Char → List Char
  | [] => []
  | [c] => [c]
  | c1 :: c2 :: r =>
    if c1 == '_' && c2 == '_' then '_' :: replaceDD r else c1 :: replaceDD (c2 :: r)

theorem replaceDD_length_le : ∀ cs : List Char, (replaceDD cs).length ≤ cs.length
  | [] => by simp [replaceDD]
  | [c] => by simp [replaceDD]
  | c1 :: c2 :: r => by
    simp only [replaceDD]
    split
    · have := replaceDD_length_le r
      simp; omega
    · have := replaceDD_length_le (c2 :: r)
      simp at this ⊢; omega

theorem replaceDD_length_lt : ∀ cs : List Char, hasDD cs = true → (replaceDD cs).length < cs.length
  | c1 :: c2 :: r, h => by
    simp only [replaceDD, hasDD] at *
    split
    · have := replaceDD_length_le r
      simp; omega
    · rename_i hne
      simp only [hne, Bool.false_or] at h
      have := replaceDD_length_lt (c2 :: r) h
      simp at this ⊢; omega

/-- Models the loop `for strings.Contains(name, "__") { name = strings.ReplaceAll(name, "__", "_") }`
of `SanitizeResourceName` (`lib/utils.go` lines 20–22). -/
def collapseLoop (cs : List Char) : List Char :=
  if hasDD cs then collapseLoop (replaceDD cs) else cs
termination_by cs.length
decreasing_by exact replaceDD_length_lt cs (by assumption)

theorem collapseLoop_eq (cs : List Char) :
    collapseLoop cs = if hasDD cs then collapseLoop (replaceDD cs) else cs := by
  rw [collapseLoop]

/-- Models `strings.Trim(name, "_")`: remove the maximal run of underscores at
either end. -/
def trimUnderscores (cs : List Char) : List Char :=
  ((cs.dropWhile fun c => c == '_').reverse.dropWhile fun c => c == '_').reverse

/-- The character-replacement and case-folding steps of `SanitizeResourceName`
(`lib/utils.go` lines 7–18), in source order: replace each of
space, `-`, `.`, `/`, `@` with `_`; delete each of `(`, `)`, `,`, `:`;
lower-case. -/
def phase1 (cs : List Char) : List Char :=
  (removeAllChar ':'
    (removeAllChar ','
      (removeAllChar ')'
        (removeAllChar '('
          (replaceAllChar '@' '_'
            (replaceAllChar '/' '_'
              (replaceAllChar '.' '_'
                (replaceAllChar '-' '_'
                  (replaceAllChar ' ' '_' cs))))))))).map Char.toLower

/-- Models `if len(name) > 0 && (name[0] >= '0' && name[0] <= '9') { name = "resource_" + name }`
(`lib/utils.go` lines 26–28). A digit-leading first byte of a Go string occurs
exactly when the first character is an ASCII digit. -/
def prefixDigit : List Char → List Char
  | [] => []
  | c :: rest =>
    if 48 ≤ c.toNat ∧ c.toNat ≤ 57 then "resource_".data ++ (c :: rest) else c :: rest

/-- Models `if name == "" { name = "unnamed_resource" }` (`lib/utils.go` lines 30–32). -/
def fallbackEmpty (cs : List Char) : List Char :=
  if cs = [] then "unnamed_resource".data else cs

/-- The character-list body of `lib.SanitizeResourceName`, all steps in source
order. -/
def sanitizeList (cs : List Char) : List Char :=
  fallbackEmpty (prefixDigit (trimUnderscores (collapseLoop (phase1 cs))))

/-- `lib.SanitizeResourceName` (`lib/utils.go` lines 6–35). -/
def SanitizeResourceName (input : String) : String :=
  ⟨sanitizeList input.data⟩

/-! ## lib/utils.go : EscapeString, GetBlockName, CreateTerraformReference -/

/-- Models `strings.ReplaceAll(s, a, r)` for a one-character pattern `a` and an
arbitrary replacement `r`: every occurrence of `a` becomes the sequence `r`. -/
def expandChar (a : Char) (r : List Char) : List Char → List Char
  | [] => []
  | c :: cs => (if c == a then r else [c]) ++ expandChar a r cs

/-- The character-list body of `lib.EscapeString`: the four `ReplaceAll`
steps in source order (backslash first, then quote, newline, tab). -/
def escapeList (cs : List Char) : List Char :=
  expandChar '\t' ['\\', 't']
    (expandChar '\n' ['\\', 'n']
      (expandChar '"' ['\\', '"']
        (expandChar '\\' ['\\', '\\'] cs)))

/-- `lib.EscapeString` (`lib/utils.go` lines 38–44). -/
def EscapeString (s : String) : String :=
  ⟨escapeList s.data⟩

/-- `lib.CreateTerraformReference` (`lib/utils.go` lines 63–65). -/
def CreateTerraformReference (resourceType resourceName : String) : String :=
  "netbird_" ++ resourceType ++ "." ++ resourceName ++ ".id"

/-! ## Data model

Attribute values as placed into the Go `map[string]any` attribute maps:
strings, booleans, integers, string slices, nested objects
(`map[string]any`), and lists of nested objects (the `rules` and
`port_ranges` shapes). Attribute maps are modelled as association lists in
insertion order; Go map writes always use fresh keys here, so insertion is an
append and lookup is the first (unique) hit. -/

inductive AttrValue where
  | str (s : String)
  | bool (b : Bool)
  | int (n : Int)
  | strList (l : List String)
  | obj (kvs : List (String × AttrValue))
  | objList (l : List (List (String × AttrValue)))

abbrev Attrs := List (String × AttrValue)

/-- Lookup of a key in an attribute map. -/
def lookupAttr (attrs : Attrs) (k : String) : Option AttrValue :=
  (attrs.find? fun kv => kv.1 == k).map fun kv => kv.2

/-- One emitted Terraform resource, as passed to
`lib.TerraformWriter.AddResource(resourceType, name, attributes)`
(`IsData` is always false on this path and the remote `ID` field is set
separately, so neither is modelled). -/
structure TFResource where
  type : String
  name : String
  attrs : Attrs

/-- A Go `map[string]string`, modelled by its lookup function
(`m[k]` with the comma-ok idiom is `m k`). -/
abbrev Mapping := String → Option String

def emptyMapping : Mapping := fun _ => none

/-- A Go map assignment `m[k] = v`: the later write wins. -/
def mapInsert (m : Mapping) (k v : String) : Mapping :=
  fun q => if q == k then some v else m q

/-! ### Raw records (`resources/groups.go`, `resources/routes.go`,
policies file; the structs in `generators.go` are field-for-field
identical, so they are shared) -/

/-- `resources.GroupResource` / main `GroupResource`. -/
structure GroupResource where
  ID : String
  type : String

/-- `resources.Group` / main `Group`.  The `peers` JSON array (`[]any`) is
used only to build the `peerIDs` local of `generateGroupResource`
(lines 76–87), which the source never reads afterwards, so the field is
modelled as the list of extracted peer-id strings. -/
structure Group where
  ID : String
  Name : String
  Peers : List String
  Resources : List GroupResource

/-- `resources.User` / main `User`. -/
structure User where
  ID : String
  Email : String
  Name : String
  Role : String
  AutoGroups : List String
  Status : String
  Issued : String
  LastLogin : String
  IsBlocked : Bool
  IsServiceUser : Bool
  IsCurrent : Bool

/-- `resources.PortRange` / main `PortRange`. -/
structure PortRange where
  Start : Int
  End : Int

/-- `resources.GroupInfo` / main `GroupInfo`. -/
structure GroupInfo where
  ID : String
  Name : String
  PeersCount : Int
  ResourcesCount : Int
  Issued : String

/-- `resources.Resource` / main `Resource`. -/
structure Resource where
  ID : String
  type : String

/-- `resources.PolicyRule` / main `PolicyRule`. -/
structure PolicyRule where
  ID : String
  Name : String
  Description : String
  Enabled : Bool
  Action : String
  Bidirectional : Bool
  Protocol : String
  Ports : List String
  PortRanges : List PortRange
  Sources : List GroupInfo
  SourceResource : Option Resource
  Destinations : List GroupInfo
  DestinationResource : Option Resource

/-- `resources.Policy` / main `Policy`. -/
structure Policy where
  ID : String
  Name : String
  Description : String
  Enabled : Bool
  Rules : List PolicyRule
  SourcePostureChecks : List String

/-- `resources.Route` / main `Route`. -/
structure Route where
  ID : String
  Description : String
  NetworkID : String
  Network : String
  NetworkType : String
  Peer : String
  PeerGroups : List String
  Metric : Int
  Masquerade : Bool
  Enabled : Bool
  Groups : List String
  KeepRoute : Bool

/-- `resources.RouteGroup`: the minimal group projection the routes handler
fetches for its own local mapping. -/
structure RouteGroup where
  ID : String
  Name : String

/-! ## GroupsHandler (`resources/groups.go`) -/

namespace GroupsHandler

/-- `GroupsHandler.generateGroupResource` (lines 69–108).  The `peerIDs`
local built from `group.Peers` (lines 76–87) is never used by the source
after being built, so it is not modelled. -/
def generateGroupResource (group : Group) : TFResource :=
  let resourceName := SanitizeResourceName group.Name
  let resourceName := if resourceName == "" then "group_" ++ group.ID else resourceName
  let attributes : Attrs := [("id", .str group.ID), ("name", .str group.Name)]
  let attributes :=
    if group.Resources.length > 0 then
      let resourceIDs := group.Resources.filterMap fun res =>
        if res.ID != "" then some res.ID else none
      if resourceIDs.length > 0 then attributes ++ [("resources", .strList resourceIDs)]
      else attributes
    else attributes
  ⟨"group", resourceName, attributes⟩

/-- The per-record loop of `GroupsHandler.ImportAndGenerate` (lines 49–52):
the emitted resources in order, and the exported id-to-resource-name map. -/
def ImportAndGenerate (groups : List Group) : List TFResource × Mapping :=
  (groups.map generateGroupResource,
   groups.foldl (fun m group => mapInsert m group.ID (generateGroupResource group).name)
     emptyMapping)

end GroupsHandler

/-! ## UsersHandler (`resources/groups.go`, second file of the package) -/

namespace UsersHandler

/-- `UsersHandler.generateUserResource` (lines 194–257). -/
def generateUserResource (groupMapping : Mapping) (user : User) : TFResource :=
  let resourceName := if user.Name != "" then SanitizeResourceName user.Name else ""
  let resourceName :=
    if resourceName == "" then
      if user.Role == "admin" then SanitizeResourceName ("admin_user_" ++ user.ID)
      else SanitizeResourceName ("user_" ++ user.ID)
    else resourceName
  let attributes : Attrs := [("id", .str user.ID)]
  let attributes :=
    if user.IsServiceUser then attributes ++ [("is_service_user", .bool true)]
    else attributes ++ [("is_service_user", .bool false)]
  let attributes :=
    if user.Email != "" then attributes ++ [("email", .str user.Email)] else attributes
  let attributes :=
    if user.Name != "" then attributes ++ [("name", .str user.Name)] else attributes
  let attributes :=
    if user.Role != "" then attributes ++ [("role", .str user.Role)] else attributes
  let attributes :=
    if user.IsBlocked then attributes ++ [("is_blocked", .bool true)]
    else attributes ++ [("is_blocked", .bool false)]
  let attributes :=
    if user.AutoGroups.length > 0 then
      attributes ++ [("auto_groups", .strList (user.AutoGroups.map fun groupID =>
        match groupMapping groupID with
        | some groupResourceName => CreateTerraformReference "group" groupResourceName
        | none => groupID))]
    else attributes
  ⟨"user", resourceName, attributes⟩

/-- The loop body of `UsersHandler.ImportAndGenerate` (lines 163–177): the
two skip conditions, then generation. -/
def processUser (groupMapping : Mapping) (user : User) : Option TFResource :=
  if user.Email == "" && !user.IsServiceUser then none
  else if user.IsServiceUser && user.Email == "" && user.Name == "" then none
  else some (generateUserResource groupMapping user)

/-- The per-record loop of `UsersHandler.ImportAndGenerate`. -/
def ImportAndGenerate (groupMapping : Mapping) (users : List User) : List TFResource :=
  users.filterMap (processUser groupMapping)

end UsersHandler

/-! ## PoliciesHandler (policies file of the `resources` package) -/

namespace PoliciesHandler

/-- The per-rule map built inside `PoliciesHandler.generatePolicyResource`
(lines 126–199). -/
def ruleAttrs (groupMapping : Mapping) (rule : PolicyRule) : Attrs :=
  let ruleMap : Attrs :=
    [("name", .str rule.Name), ("description", .str rule.Description),
     ("enabled", .bool rule.Enabled), ("action", .str rule.Action),
     ("bidirectional", .bool rule.Bidirectional), ("protocol", .str rule.Protocol)]
  let ruleMap :=
    if rule.Ports.length > 0 then ruleMap ++ [("ports", .strList rule.Ports)] else ruleMap
  let ruleMap :=
    if rule.PortRanges.length > 0 then
      ruleMap ++ [("port_ranges", .objList (rule.PortRanges.map fun portRange =>
        [("start", .int portRange.Start), ("end", .int portRange.End)]))]
    else ruleMap
  let ruleMap :=
    if rule.Sources.length > 0 then
      ruleMap ++ [("sources", .strList (rule.Sources.map fun source =>
        match groupMapping source.ID with
        | some groupResourceName => CreateTerraformReference "group" groupResourceName
        | none => CreateTerraformReference "group" (SanitizeResourceName source.Name)))]
    else ruleMap
  let ruleMap :=
    if rule.Destinations.length > 0 then
      ruleMap ++ [("destinations", .strList (rule.Destinations.map fun dest =>
        match groupMapping dest.ID with
        | some groupResourceName => CreateTerraformReference "group" groupResourceName
        | none => CreateTerraformReference "group" (SanitizeResourceName dest.Name)))]
    else ruleMap
  let ruleMap :=
    match rule.SourceResource with
    | some res => ruleMap ++ [("source_resource", .obj [("id", .str res.ID), ("type", .str res.type)])]
    | none => ruleMap
  let ruleMap :=
    match rule.DestinationResource with
    | some res => ruleMap ++ [("destination_resource", .obj [("id", .str res.ID), ("type", .str res.type)])]
    | none => ruleMap
  ruleMap

/-- `PoliciesHandler.generatePolicyResource` (lines 107–205). -/
def generatePolicyResource (groupMapping : Mapping) (policy : Policy) : TFResource :=
  let resourceName := SanitizeResourceName policy.Name
  let resourceName := if resourceName == "" then "policy_" ++ policy.ID else resourceName
  let attributes : Attrs :=
    [("id", .str policy.ID), ("name", .str policy.Name),
     ("description", .str policy.Description), ("enabled", .bool policy.Enabled)]
  let attributes :=
    if policy.SourcePostureChecks.length > 0 then
      attributes ++ [("source_posture_checks", .strList policy.SourcePostureChecks)]
    else attributes
  let attributes :=
    if policy.Rules.length > 0 then
      attributes ++ [("rules", .objList (policy.Rules.map (ruleAttrs groupMapping)))]
    else attributes
  ⟨"policy", resourceName, attributes⟩

/-- The per-record loop of `PoliciesHandler.ImportAndGenerate`. -/
def ImportAndGenerate (groupMapping : Mapping) (policies : List Policy) : List TFResource :=
  policies.map (generatePolicyResource groupMapping)

end PoliciesHandler

/-! ## RoutesHandler (`resources/routes.go`) -/

namespace RoutesHandler

/-- The route-local group mapping rebuilt by `RoutesHandler.ImportAndGenerate`
(lines 56–60) from the freshly fetched minimal group projection. -/
def buildGroupMapping (groups : List RouteGroup) : Mapping :=
  groups.foldl (fun m group => mapInsert m group.ID (SanitizeResourceName group.Name))
    emptyMapping

/-- `RoutesHandler.generateRouteResource` (lines 88–128). -/
def generateRouteResource (groupIDToResourceName : Mapping) (route : Route) : TFResource :=
  let resourceName := SanitizeResourceName route.NetworkID
  let resourceName :=
    if resourceName == "" then SanitizeResourceName route.Network else resourceName
  let resourceName := if resourceName == "" then "route_" ++ route.ID else resourceName
  let groupRefs := route.Groups.filterMap fun groupID =>
    (groupIDToResourceName groupID).map fun n => CreateTerraformReference "group" n
  let peerGroupRefs := route.PeerGroups.filterMap fun groupID =>
    (groupIDToResourceName groupID).map fun n => CreateTerraformReference "group" n
  ⟨"route", resourceName,
   [("id", .str route.ID), ("description", .str route.Description),
    ("network_id", .str route.NetworkID), ("network", .str route.Network),
    ("peer", .str route.Peer), ("peer_groups", .strList peerGroupRefs),
    ("metric", .int route.Metric), ("masquerade", .bool route.Masquerade),
    ("enabled", .bool route.Enabled), ("groups", .strList groupRefs),
    ("keep_route", .bool route.KeepRoute)]⟩

/-- The per-record part of `RoutesHandler.ImportAndGenerate` (lines 69–71). -/
def ImportAndGenerate (groups : List RouteGroup) (routes : List Route) : List TFResource :=
  routes.map (generateRouteResource (buildGroupMapping groups))

end RoutesHandler

/-! ## UsersGenerator (`generators.go`, the standalone variant) -/

namespace UsersGenerator

/-- Modelled from the spec: the `main`-package `sanitizeResourceName` used by
`generators.go` is not among the provided source files (only its call sites
are); spec §4.1 specifies a single sanitizer algorithm for the whole tool,
which is the algorithm of `lib.SanitizeResourceName`. -/
def sanitizeResourceName (input : String) : String :=
  SanitizeResourceName input

/-- `UsersGenerator.generateUserResource` (`generators.go` lines 206–270).
Identical to `UsersHandler.generateUserResource` except that `is_blocked`
is assigned only when `user.IsBlocked` is true (lines 248–250 have no
`else` branch). -/
def generateUserResource (groupIDToResourceName : Mapping) (user : User) : TFResource :=
  let resourceName := if user.Name != "" then sanitizeResourceName user.Name else ""
  let resourceName :=
    if resourceName == "" then
      if user.Role == "admin" then sanitizeResourceName ("admin_user_" ++ user.ID)
      else sanitizeResourceName ("user_" ++ user.ID)
    else resourceName
  let attributes : Attrs := [("id", .str user.ID)]
  let attributes :=
    if user.IsServiceUser then attributes ++ [("is_service_user", .bool true)]
    else attributes ++ [("is_service_user", .bool false)]
  let attributes :=
    if user.Email != "" then attributes ++ [("email", .str user.Email)] else attributes
  let attributes :=
    if user.Name != "" then attributes ++ [("name", .str user.Name)] else attributes
  let attributes :=
    if user.Role != "" then attributes ++ [("role", .str user.Role)] else attributes
  let attributes :=
    if user.IsBlocked then attributes ++ [("is_blocked", .bool true)] else attributes
  let attributes :=
    if user.AutoGroups.length > 0 then
      attributes ++ [("auto_groups", .strList (user.AutoGroups.map fun groupID =>
        match groupIDToResourceName groupID with
        | some groupResourceName => "netbird_group." ++ groupResourceName ++ ".id"
        | none => groupID))]
    else attributes
  ⟨"user", resourceName, attributes⟩

/-- The loop body of `UsersGenerator.InitResourcesWithGroupMapping`
(`generators.go` lines 185–199): identical skip conditions to the handler
variant. -/
def processUser (groupIDToResourceName : Mapping) (user : User) : Option TFResource :=
  if user.Email == "" && !user.IsServiceUser then none
  else if user.IsServiceUser && user.Email == "" && user.Name == "" then none
  else some (generateUserResource groupIDToResourceName user)

/-- The per-record loop of `UsersGenerator.InitResourcesWithGroupMapping`. -/
def InitResourcesWithGroupMapping (groupIDToResourceName : Mapping) (users : List User) :
    List TFResource :=
  users.filterMap (processUser groupIDToResourceName)

end UsersGenerator

/-! ## Properties of the sanitizer: character-level facts -/

theorem charToNat_inj {c d : Char} (h : c.toNat = d.toNat) : c = d :=
  Char.ext (UInt32.toNat.inj h)

theorem charOfNat_toNat {n : Nat} (h : n < 55296) : (Char.ofNat n).toNat = n := by
  have hv : n.isValidChar := Or.inl h
  rw [Char.ofNat, dif_pos hv]
  simp [Char.ofNatAux, Char.toNat, UInt32.toNat]

theorem toLower_toNat (c : Char) :
    (Char.toLower c).toNat = if 65 ≤ c.toNat ∧ c.toNat ≤ 90 then c.toNat + 32 else c.toNat := by
  unfold Char.toLower
  split
  · rename_i h
    rw [if_pos ⟨h.1, h.2⟩]
    exact charOfNat_toNat (by omega)
  · rename_i h
    rw [if_neg h]

theorem toLower_idem (c : Char) : Char.toLower (Char.toLower c) = Char.toLower c := by
  apply charToNat_inj
  rw [toLower_toNat, toLower_toNat]
  by_cases h : 65 ≤ c.toNat ∧ c.toNat ≤ 90
  · rw [if_pos h, if_neg (by omega)]
  · rw [if_neg h, if_neg h]

theorem toLower_fixed {c : Char} (h : ¬(65 ≤ c.toNat ∧ c.toNat ≤ 90)) :
    Char.toLower c = c := by
  unfold Char.toLower
  rw [if_neg]
  exact fun hc => h ⟨hc.1, hc.2⟩

theorem ne_of_toNat_ne {c d : Char} (h : c.toNat ≠ d.toNat) : c ≠ d := by
  intro he
  subst he
  exact h rfl

/-- A character fixed by every per-character step of the sanitizer: none of
the five replaced characters, none of the four deleted characters, and
already lower case. -/
abbrev goodChar (c : Char) : Prop :=
  c ≠ ' ' ∧ c ≠ '-' ∧ c ≠ '.' ∧ c ≠ '/' ∧ c ≠ '@' ∧
  c ≠ '(' ∧ c ≠ ')' ∧ c ≠ ',' ∧ c ≠ ':' ∧ Char.toLower c = c

theorem mem_replaceAllChar {x a b : Char} {l : List Char}
    (h : x ∈ replaceAllChar a b l) : x = b ∨ (x ∈ l ∧ x ≠ a) := by
  unfold replaceAllChar at h
  obtain ⟨c, hc, he⟩ := List.mem_map.mp h
  by_cases hca : c = a
  · left
    rw [← he, if_pos (by simp [hca])]
  · right
    rw [← he, if_neg (by simp [hca])]
    exact ⟨hc, hca⟩

theorem mem_removeAllChar {x a : Char} {l : List Char}
    (h : x ∈ removeAllChar a l) : x ∈ l ∧ x ≠ a := by
  unfold removeAllChar at h
  have := List.mem_filter.mp h
  refine ⟨this.1, ?_⟩
  simpa using this.2

theorem mem_fiveReplacements {d : Char} {cs : List Char}
    (h : d ∈ replaceAllChar '@' '_' (replaceAllChar '/' '_' (replaceAllChar '.' '_'
          (replaceAllChar '-' '_' (replaceAllChar ' ' '_' cs))))) :
    d ≠ ' ' ∧ d ≠ '-' ∧ d ≠ '.' ∧ d ≠ '/' ∧ d ≠ '@' := by
  rcases mem_replaceAllChar h with rfl | ⟨h, h5⟩
  · exact ⟨by decide, by decide, by decide, by decide, by decide⟩
  rcases mem_replaceAllChar h with rfl | ⟨h, h4⟩
  · exact ⟨by decide, by decide, by decide, by decide, h5⟩
  rcases mem_replaceAllChar h with rfl | ⟨h, h3⟩
  · exact ⟨by decide, by decide, by decide, h4, h5⟩
  rcases mem_replaceAllChar h with rfl | ⟨h, h2⟩
  · exact ⟨by decide, by decide, h3, h4, h5⟩
  rcases mem_replaceAllChar h with rfl | ⟨_, h1⟩
  · exact ⟨by decide, h2, h3, h4, h5⟩
  exact ⟨h1, h2, h3, h4, h5⟩

theorem goodChar_toLower {d : Char}
    (h1 : d ≠ ' ') (h2 : d ≠ '-') (h3 : d ≠ '.') (h4 : d ≠ '/') (h5 : d ≠ '@')
    (h6 : d ≠ '(') (h7 : d ≠ ')') (h8 : d ≠ ',') (h9 : d ≠ ':') :
    goodChar (Char.toLower d) := by
  by_cases hu : 65 ≤ d.toNat ∧ d.toNat ≤ 90
  · have hlow : 97 ≤ (Char.toLower d).toNat ∧ (Char.toLower d).toNat ≤ 122 := by
      rw [toLower_toNat, if_pos hu]
      omega
    refine ⟨?_, ?_, ?_, ?_, ?_, ?_, ?_, ?_, ?_, toLower_idem d⟩ <;>
      · intro he
        rw [he] at hlow
        exact absurd hlow (by decide)
  · have ht : Char.toLower d = d := toLower_fixed hu
    rw [ht]
    exact ⟨h1, h2, h3, h4, h5, h6, h7, h8, h9, ht⟩

theorem phase1_good {c : Char} {cs : List Char} (h : c ∈ phase1 cs) : goodChar c := by
  unfold phase1 at h
  obtain ⟨d, hd, he⟩ := List.mem_map.mp h
  obtain ⟨hd, h9⟩ := mem_removeAllChar hd
  obtain ⟨hd, h8⟩ := mem_removeAllChar hd
  obtain ⟨hd, h7⟩ := mem_removeAllChar hd
  obtain ⟨hd, h6⟩ := mem_removeAllChar hd
  obtain ⟨h1, h2, h3, h4, h5⟩ := mem_fiveReplacements hd
  rw [← he]
  exact goodChar_toLower h1 h2 h3 h4 h5 h6 h7 h8 h9

/-! ## Properties of the sanitizer: the collapse loop -/

theorem mem_replaceDD : ∀ {x : Char} {cs : List Char}, x ∈ replaceDD cs → x ∈ cs
  | x, [], h => by simp [replaceDD] at h
  | x, [c], h => by simpa [replaceDD] using h
  | x, c1 :: c2 :: r, h => by
    simp only [replaceDD] at h
    split at h
    · rename_i hdd
      have hc1 : c1 = '_' := by
        have := hdd
        simp at this
        exact this.1
      rcases List.mem_cons.mp h with rfl | hx
      · simp [hc1]
      · have := mem_replaceDD hx
        simp [this]
    · rcases List.mem_cons.mp h with rfl | hx
      · simp
      · have := mem_replaceDD hx
        simp at this ⊢
        tauto

theorem mem_collapseLoop (cs : List Char) (x : Char) (h : x ∈ collapseLoop cs) : x ∈ cs := by
  rw [collapseLoop_eq] at h
  split at h
  · exact mem_replaceDD (mem_collapseLoop (replaceDD cs) x h)
  · exact h
termination_by cs.length
decreasing_by exact replaceDD_length_lt cs (by assumption)

theorem hasDD_collapseLoop (cs : List Char) : hasDD (collapseLoop cs) = false := by
  rw [collapseLoop_eq]
  split
  · exact hasDD_collapseLoop (replaceDD cs)
  · rename_i h
    simpa using h
termination_by cs.length
decreasing_by exact replaceDD_length_lt cs (by assumption)

theorem collapseLoop_eq_self {cs : List Char} (h : hasDD cs = false) : collapseLoop cs = cs := by
  rw [collapseLoop_eq, h]
  simp

/-- Adjacent characters are never both underscores. -/
abbrev noDDrel (a b : Char) : Prop := ¬(a = '_' ∧ b = '_')

theorem hasDD_eq_false_iff : ∀ cs : List Char,
    hasDD cs = false ↔ List.Chain' noDDrel cs
  | [] => by simp [hasDD]
  | [c] => by simp [hasDD]
  | c1 :: c2 :: r => by
    rw [List.chain'_cons]
    rw [← hasDD_eq_false_iff (c2 :: r)]
    simp [hasDD, noDDrel]

/-! ## Properties of the sanitizer: trimming -/

theorem chain'_of_suffix {R : Char → Char → Prop} {l1 l2 : List Char} (h : l1 <:+ l2)
    (hc : List.Chain' R l2) : List.Chain' R l1 := by
  obtain ⟨t, rfl⟩ := h
  exact (List.chain'_append.mp hc).2.1

theorem chain'_noDD_reverse {l : List Char} (h : List.Chain' noDDrel l) :
    List.Chain' noDDrel l.reverse := by
  rw [List.chain'_reverse]
  exact h.imp fun a b hab hba => hab ⟨hba.2, hba.1⟩

theorem getLast?_of_suffix {l1 l2 : List Char} (h : l1 <:+ l2) (hne : l1 ≠ []) :
    l1.getLast? = l2.getLast? := by
  obtain ⟨t, rfl⟩ := h
  rw [List.getLast?_append]
  cases hl : l1.getLast? with
  | none => exact absurd (List.getLast?_eq_none_iff.mp hl) hne
  | some c => rfl

theorem getLast?_reverse (l : List Char) : l.reverse.getLast? = l.head? := by
  rw [← List.head?_reverse, List.reverse_reverse]

theorem head?_dropWhile_false {p : Char → Bool} {l : List Char} {c : Char}
    (h : (List.dropWhile p l).head? = some c) : p c = false := by
  have := List.head?_dropWhile_not p l
  rw [h] at this
  exact this

theorem trimUnderscores_subset {x : Char} {cs : List Char} (h : x ∈ trimUnderscores cs) :
    x ∈ cs := by
  unfold trimUnderscores at h
  rw [List.mem_reverse] at h
  have h2 := (List.dropWhile_sublist _).subset h
  rw [List.mem_reverse] at h2
  exact (List.dropWhile_sublist _).subset h2

theorem trimUnderscores_chain' {cs : List Char} (h : List.Chain' noDDrel cs) :
    List.Chain' noDDrel (trimUnderscores cs) := by
  unfold trimUnderscores
  apply chain'_noDD_reverse
  apply chain'_of_suffix (List.dropWhile_suffix _)
  apply chain'_noDD_reverse
  exact chain'_of_suffix (List.dropWhile_suffix _) h

theorem trimUnderscores_head {cs : List Char} {c : Char}
    (h : (trimUnderscores cs).head? = some c) : c ≠ '_' := by
  unfold trimUnderscores at h
  rw [List.head?_reverse] at h
  have hne : ((cs.dropWhile fun c => c == '_').reverse.dropWhile fun c => c == '_') ≠ [] := by
    intro he
    rw [he] at h
    exact Option.noConfusion h
  rw [getLast?_of_suffix (List.dropWhile_suffix _) hne, getLast?_reverse] at h
  have := head?_dropWhile_false h
  simpa using this

theorem trimUnderscores_getLast {cs : List Char} {c : Char}
    (h : (trimUnderscores cs).getLast? = some c) : c ≠ '_' := by
  unfold trimUnderscores at h
  rw [getLast?_reverse] at h
  have := head?_dropWhile_false h
  simpa using this

theorem dropWhile_eq_self_of_head {p : Char → Bool} {l : List Char}
    (h : ∀ c, l.head? = some c → p c = false) : l.dropWhile p = l := by
  cases l with
  | nil => rfl
  | cons c r =>
    rw [List.dropWhile_cons, if_neg]
    simp [h c rfl]

theorem trimUnderscores_eq_self {cs : List Char}
    (hh : ∀ c, cs.head? = some c → c ≠ '_') (hl : ∀ c, cs.getLast? = some c → c ≠ '_') :
    trimUnderscores cs = cs := by
  have e1 : (cs.dropWhile fun c => c == '_') = cs :=
    dropWhile_eq_self_of_head fun c hc => by simp [hh c hc]
  unfold trimUnderscores
  rw [e1]
  have e2 : (cs.reverse.dropWhile fun c => c == '_') = cs.reverse :=
    dropWhile_eq_self_of_head fun c hc => by
      rw [List.head?_reverse] at hc
      simp [hl c hc]
  rw [e2, List.reverse_reverse]

/-! ## Properties of the sanitizer: identity on already-sanitized input -/

theorem map_eq_self_of {f : Char → Char} {l : List Char} (h : ∀ c ∈ l, f c = c) :
    l.map f = l := by
  induction l with
  | nil => rfl
  | cons c r ih =>
    rw [List.map_cons, h c (by simp), ih fun d hd => h d (by simp [hd])]

theorem replaceAllChar_eq_self {a b : Char} {l : List Char} (h : ∀ c ∈ l, c ≠ a) :
    replaceAllChar a b l = l :=
  map_eq_self_of fun c hc => by rw [if_neg (by simp [h c hc])]

theorem removeAllChar_eq_self {a : Char} {l : List Char} (h : ∀ c ∈ l, c ≠ a) :
    removeAllChar a l = l :=
  List.filter_eq_self.mpr fun c hc => by simp [h c hc]

theorem phase1_eq_self {cs : List Char} (h : ∀ c ∈ cs, goodChar c) : phase1 cs = cs := by
  unfold phase1
  rw [replaceAllChar_eq_self fun c hc => (h c hc).1,
      replaceAllChar_eq_self fun c hc => (h c hc).2.1,
      replaceAllChar_eq_self fun c hc => (h c hc).2.2.1,
      replaceAllChar_eq_self fun c hc => (h c hc).2.2.2.1,
      replaceAllChar_eq_self fun c hc => (h c hc).2.2.2.2.1,
      removeAllChar_eq_self fun c hc => (h c hc).2.2.2.2.2.1,
      removeAllChar_eq_self fun c hc => (h c hc).2.2.2.2.2.2.1,
      removeAllChar_eq_self fun c hc => (h c hc).2.2.2.2.2.2.2.1,
      removeAllChar_eq_self fun c hc => (h c hc).2.2.2.2.2.2.2.2.1]
  exact map_eq_self_of fun c hc => (h c hc).2.2.2.2.2.2.2.2.2

theorem prefixDigit_eq_self {cs : List Char}
    (h : ∀ c, cs.head? = some c → ¬(48 ≤ c.toNat ∧ c.toNat ≤ 57)) :
    prefixDigit cs = cs := by
  cases cs with
  | nil => rfl
  | cons c rest =>
    simp only [prefixDigit]
    rw [if_neg (h c rfl)]

theorem fallbackEmpty_eq_self {cs : List Char} (h : cs ≠ []) : fallbackEmpty cs = cs := by
  unfold fallbackEmpty
  rw [if_neg h]

/-! ## The sanitizer output invariant -/

/-- Invariants of every `sanitizeList` output: all characters are fixed by the
per-character steps, no two adjacent underscores, no leading or trailing
underscore, no leading ASCII digit, non-empty. -/
structure SanOut (l : List Char) : Prop where
  good : ∀ c ∈ l, goodChar c
  noDD : hasDD l = false
  headNoUnd : ∀ c, l.head? = some c → c ≠ '_'
  lastNoUnd : ∀ c, l.getLast? = some c → c ≠ '_'
  headNoDigit : ∀ c, l.head? = some c → ¬(48 ≤ c.toNat ∧ c.toNat ≤ 57)
  ne_nil : l ≠ []

theorem sanitizeList_out (cs : List Char) : SanOut (sanitizeList cs) := by
  have good12 : ∀ c ∈ trimUnderscores (collapseLoop (phase1 cs)), goodChar c :=
    fun c hc => phase1_good (mem_collapseLoop _ _ (trimUnderscores_subset hc))
  have noDD12 : hasDD (trimUnderscores (collapseLoop (phase1 cs))) = false :=
    (hasDD_eq_false_iff _).mpr
      (trimUnderscores_chain' ((hasDD_eq_false_iff _).mp (hasDD_collapseLoop _)))
  have head12 : ∀ c, (trimUnderscores (collapseLoop (phase1 cs))).head? = some c → c ≠ '_' :=
    fun c hc => trimUnderscores_head hc
  have last12 : ∀ c, (trimUnderscores (collapseLoop (phase1 cs))).getLast? = some c → c ≠ '_' :=
    fun c hc => trimUnderscores_getLast hc
  unfold sanitizeList
  cases h12 : trimUnderscores (collapseLoop (phase1 cs)) with
  | nil =>
    have hout : fallbackEmpty (prefixDigit []) = "unnamed_resource".data := rfl
    rw [hout]
    refine ⟨by decide, by decide, ?_, ?_, ?_, by decide⟩
    · intro d hd
      have hh : ("unnamed_resource".data : List Char).head? = some 'u' := rfl
      rw [hh] at hd
      rw [← Option.some.inj hd]
      decide
    · intro d hd
      have hh : ("unnamed_resource".data : List Char).getLast? = some 'e' := rfl
      rw [hh] at hd
      rw [← Option.some.inj hd]
      decide
    · intro d hd
      have hh : ("unnamed_resource".data : List Char).head? = some 'u' := rfl
      rw [hh] at hd
      rw [← Option.some.inj hd]
      decide
  | cons c rest =>
    rw [h12] at good12 noDD12 head12 last12
    by_cases hdig : 48 ≤ c.toNat ∧ c.toNat ≤ 57
    · -- "resource_" is prepended
      have hout : prefixDigit (c :: rest) = "resource_".data ++ (c :: rest) := by
        simp only [prefixDigit]
        rw [if_pos hdig]
      rw [hout, fallbackEmpty_eq_self (by simp)]
      have hcne : c ≠ '_' := by
        apply ne_of_toNat_ne
        have h95 : ('_' : Char).toNat = 95 := by decide
        omega
      refine ⟨?_, ?_, ?_, ?_, ?_, by simp⟩
      · intro d hd
        rcases List.mem_append.mp hd with hd | hd
        · exact (by decide : ∀ x ∈ ("resource_".data : List Char), goodChar x) d hd
        · exact good12 d hd
      · rw [hasDD_eq_false_iff, List.chain'_append]
        refine ⟨(hasDD_eq_false_iff _).mp (by decide), (hasDD_eq_false_iff _).mp noDD12, ?_⟩
        intro x hx y hy
        have hg : ("resource_".data : List Char).getLast? = some '_' := rfl
        rw [hg] at hx
        have hx9 : x = '_' := (Option.some.inj (Option.mem_def.mp hx)).symm
        have hy9 : y = c := (Option.some.inj (Option.mem_def.mp hy)).symm
        rw [hx9, hy9]
        exact fun hc => hcne hc.2
      · intro d hd
        have hh : ("resource_".data ++ (c :: rest)).head? = some 'r' := rfl
        rw [hh] at hd
        rw [← Option.some.inj hd]
        decide
      · intro d hd
        rw [List.getLast?_append] at hd
        have hcr : (c :: rest).getLast? = some d := by
          cases hlast : (c :: rest).getLast? with
          | none => exact absurd (List.getLast?_eq_none_iff.mp hlast) (by simp)
          | some x =>
            rw [hlast] at hd
            simpa using hd
        exact last12 d hcr
      · intro d hd
        have hh : ("resource_".data ++ (c :: rest)).head? = some 'r' := rfl
        rw [hh] at hd
        rw [← Option.some.inj hd]
        decide
    · -- no digit prepend: identity from here on
      have hout : prefixDigit (c :: rest) = c :: rest := by
        simp only [prefixDigit]
        rw [if_neg hdig]
      rw [hout, fallbackEmpty_eq_self (by simp)]
      refine ⟨good12, noDD12, head12, last12, ?_, by simp⟩
      intro d hd
      rw [← Option.some.inj hd]
      exact hdig

theorem sanitizeList_idem (cs : List Char) : sanitizeList (sanitizeList cs) = sanitizeList cs := by
  have H := sanitizeList_out cs
  have e : sanitizeList (sanitizeList cs) =
      fallbackEmpty (prefixDigit (trimUnderscores (collapseLoop (phase1 (sanitizeList cs))))) := rfl
  rw [e, phase1_eq_self H.good, collapseLoop_eq_self H.noDD,
      trimUnderscores_eq_self H.headNoUnd H.lastNoUnd,
      prefixDigit_eq_self H.headNoDigit, fallbackEmpty_eq_self H.ne_nil]

theorem sanitizeList_ne_nil (cs : List Char) : sanitizeList cs ≠ [] :=
  (sanitizeList_out cs).ne_nil

theorem SanitizeResourceName_ne_empty (s : String) : SanitizeResourceName s ≠ "" := by
  unfold SanitizeResourceName
  intro h
  have : sanitizeList s.data = "".data := congrArg String.data h
  exact sanitizeList_ne_nil s.data this

/-- Evaluation helper: once the replacement/case-folding phase is computed and
its result has no double underscore, the collapse loop exits at once and the
remaining steps are structural. -/
theorem sanitize_eval {s : String} {u : List Char} (h1 : phase1 s.data = u)
    (h2 : hasDD u = false) :
    SanitizeResourceName s = ⟨fallbackEmpty (prefixDigit (trimUnderscores u))⟩ := by
  show (⟨sanitizeList s.data⟩ : String) = _
  unfold sanitizeList
  rw [h1, collapseLoop_eq_self h2]

/-! ## Attribute-map lookup facts -/

theorem lookupAttr_append (l1 l2 : Attrs) (k : String) :
    lookupAttr (l1 ++ l2) k = (lookupAttr l1 k).or (lookupAttr l2 k) := by
  unfold lookupAttr
  rw [List.find?_append]
  cases List.find? (fun kv => kv.1 == k) l1 <;> simp

/-! ## Properties of the escaper -/

/-- The combined per-character action of the four sequential `ReplaceAll`
steps of `EscapeString`: the later steps never touch characters introduced by
the earlier ones, so the whole escapes each input character independently. -/
def escChar (c : Char) : List Char :=
  if c == '\\' then ['\\', '\\']
  else if c == '"' then ['\\', '"']
  else if c == '\n' then ['\\', 'n']
  else if c == '\t' then ['\\', 't']
  else [c]

theorem expandChar_append (a : Char) (r : List Char) (l1 l2 : List Char) :
    expandChar a r (l1 ++ l2) = expandChar a r l1 ++ expandChar a r l2 := by
  induction l1 with
  | nil => rfl
  | cons c cs ih =>
    show (if c == a then r else [c]) ++ expandChar a r (cs ++ l2) = _
    rw [ih]
    simp [expandChar]

theorem escapeList_cons (c : Char) (cs : List Char) :
    escapeList (c :: cs) = escChar c ++ escapeList cs := by
  unfold escapeList
  have h1 : expandChar '\\' ['\\', '\\'] (c :: cs) =
      (if c == '\\' then ['\\', '\\'] else [c]) ++ expandChar '\\' ['\\', '\\'] cs := rfl
  rw [h1, expandChar_append, expandChar_append, expandChar_append]
  congr 1
  by_cases hbs : c = '\\'
  · subst hbs; rfl
  by_cases hq : c = '"'
  · subst hq; rfl
  by_cases hn : c = '\n'
  · subst hn; rfl
  by_cases ht : c = '\t'
  · subst ht; rfl
  simp [expandChar, escChar, hbs, hq, hn, ht]

/-- A decoder for escaped output: a backslash and its follower decode to one
character, anything else passes through.  Any left inverse suffices for
injectivity; this one inverts `escChar` codes. -/
def unescapeList : List Char → List Char
  | [] => []
  | [c] => [c]
  | c1 :: c2 :: r =>
    if c1 == '\\' then
      (if c2 == '\\' then '\\' else if c2 == '"' then '"' else if c2 == 'n' then '\n'
       else if c2 == 't' then '\t' else c2) :: unescapeList r
    else c1 :: unescapeList (c2 :: r)

theorem unescape_escChar (c : Char) (t : List Char) :
    unescapeList (escChar c ++ t) = c :: unescapeList t := by
  by_cases hbs : c = '\\'
  · subst hbs; simp [escChar, unescapeList]
  by_cases hq : c = '"'
  · subst hq; simp [escChar, unescapeList]
  by_cases hn : c = '\n'
  · subst hn; simp [escChar, unescapeList]
  by_cases ht : c = '\t'
  · subst ht; simp [escChar, unescapeList]
  have he : escChar c = [c] := by simp [escChar, hbs, hq, hn, ht]
  rw [he]
  cases t with
  | nil => rfl
  | cons c2 r =>
    show unescapeList (c :: c2 :: r) = c :: unescapeList (c2 :: r)
    simp only [unescapeList]
    rw [if_neg (by simp [hbs])]

theorem unescape_escapeList (cs : List Char) : unescapeList (escapeList cs) = cs := by
  induction cs with
  | nil => rfl
  | cons c cs ih => rw [escapeList_cons, unescape_escChar, ih]

/-! ## Concrete records used by the claims -/

/-- The group record `{id:"g1", name:"Eng Team"}` of the end-to-end scenario. -/
def g1 : Group := { ID := "g1", Name := "Eng Team", Peers := [], Resources := [] }

/-- The user record `{id:"u1", name:"Alice", auto_groups:["g1"]}` with all
other fields empty/false. -/
def alice : User :=
  { ID := "u1", Email := "", Name := "Alice", Role := "", AutoGroups := ["g1"],
    Status := "", Issued := "", LastLogin := "", IsBlocked := false,
    IsServiceUser := false, IsCurrent := false }

/-- The same record additionally marked a service user, the minimal change
that lets it pass the user collector's exclusion filter. -/
def aliceService : User := { alice with IsServiceUser := true }

/-- A user that passes the exclusion filter (non-empty email) and is not
blocked. -/
def bob : User :=
  { ID := "u2", Email := "bob@x.io", Name := "Bob", Role := "", AutoGroups := [],
    Status := "", Issued := "", LastLogin := "", IsBlocked := false,
    IsServiceUser := false, IsCurrent := false }

/-- Does the string match `^[a-z0-9_]*$`? -/
def matchesLowerCharset (s : String) : Bool :=
  s.data.all fun c =>
    (decide (97 ≤ c.toNat) && decide (c.toNat ≤ 122)) ||
    (decide (48 ≤ c.toNat) && decide (c.toNat ≤ 57)) || c == '_'

/-- Does the string (as a character list) start with an ASCII digit?  This is
Go's byte test `name[0] >= '0' && name[0] <= '9'`: the first byte of a UTF-8
string is in `0x30`–`0x39` exactly when the first character is an ASCII
digit. -/
def startsWithAsciiDigit : List Char → Bool
  | [] => false
  | c :: _ => decide (48 ≤ c.toNat) && decide (c.toNat ≤ 57)

/-! ## The claims -/

/-- C1, counterexample: on exactly the claimed input — one group
`{id:"g1", name:"Eng Team"}` and one user `{id:"u1", name:"Alice",
auto_groups:["g1"]}` with all other fields empty/false — the user collector
emits no user resource at all: the record has an empty email and is not a
service user, so the exclusion filter of `UsersHandler.ImportAndGenerate`
skips it, and no block named "alice" exists. -/
theorem C1_counterexample :
    UsersHandler.ImportAndGenerate (GroupsHandler.ImportAndGenerate [g1]).2 [alice] = [] := rfl

/-- C1, amended: the group pass emits the single group block `eng_team`, and
the claimed user block appears only if the user record additionally passes
the exclusion filter (say, marked `is_service_user`): then the collector
emits a user block named "alice" whose `auto_groups` attribute is exactly
`["netbird_group.eng_team.id"]`; with the record exactly as claimed the user
is skipped and only the group block is emitted. -/
theorem C1_amended :
    (GroupsHandler.ImportAndGenerate [g1]).1 =
      [⟨"group", "eng_team", [("id", .str "g1"), ("name", .str "Eng Team")]⟩] ∧
    UsersHandler.ImportAndGenerate (GroupsHandler.ImportAndGenerate [g1]).2 [alice] = [] ∧
    UsersHandler.ImportAndGenerate (GroupsHandler.ImportAndGenerate [g1]).2 [aliceService] =
      [⟨"user", "alice",
        [("id", .str "u1"), ("is_service_user", .bool true), ("name", .str "Alice"),
         ("is_blocked", .bool false),
         ("auto_groups", .strList ["netbird_group.eng_team.id"])]⟩] := by
  have hsan : SanitizeResourceName "Eng Team" = "eng_team" :=
    (sanitize_eval (u := "eng_team".data) (by decide) (by decide)).trans (by decide)
  have hsan2 : SanitizeResourceName "Alice" = "alice" :=
    (sanitize_eval (u := "alice".data) (by decide) (by decide)).trans (by decide)
  refine ⟨?_, rfl, ?_⟩
  · simp [GroupsHandler.ImportAndGenerate, GroupsHandler.generateGroupResource, g1, hsan]
  · simp [UsersHandler.ImportAndGenerate, UsersHandler.processUser,
      UsersHandler.generateUserResource, GroupsHandler.ImportAndGenerate,
      GroupsHandler.generateGroupResource, g1, aliceService, alice, hsan, hsan2,
      mapInsert, emptyMapping, CreateTerraformReference]

/-- C2, counterexample: for the group `{id:"g1", name:""}` the display name
sanitizes to empty, but the generated symbolic name is "unnamed_resource"
(the sanitizer's own fallback), not the claimed "group_g1": since
`SanitizeResourceName` never returns the empty string, the handler's
`if resourceName == ""` fallback branch can never fire. -/
theorem C2_counterexample :
    (GroupsHandler.generateGroupResource ⟨"g1", "", [], []⟩).name = "unnamed_resource" ∧
    (GroupsHandler.generateGroupResource ⟨"g1", "", [], []⟩).name ≠ "group_g1" := by
  have h : SanitizeResourceName "" = "unnamed_resource" :=
    (sanitize_eval (u := ([] : List Char)) (by decide) (by decide)).trans (by decide)
  constructor
  · simp [GroupsHandler.generateGroupResource, h]
  · simp [GroupsHandler.generateGroupResource, h]

/-- C2, amended: for every group, policy, or route record the generated
symbolic name is always the sanitized display name (group name, policy name,
route network_id) — `SanitizeResourceName` never returns the empty string
(empty or collapsing display names yield "unnamed_resource"), so the
kind-specific `"group_<ID>"` / `"policy_<ID>"` / `"route_<ID>"` fallback
branches are unreachable. -/
theorem C2_amended :
    (∀ group : Group,
      (GroupsHandler.generateGroupResource group).name = SanitizeResourceName group.Name) ∧
    (∀ (gm : Mapping) (policy : Policy),
      (PoliciesHandler.generatePolicyResource gm policy).name = SanitizeResourceName policy.Name) ∧
    (∀ (gm : Mapping) (route : Route),
      (RoutesHandler.generateRouteResource gm route).name = SanitizeResourceName route.NetworkID) ∧
    (∀ s : String, SanitizeResourceName s ≠ "") := by
  have hbeq : ∀ x : String, (SanitizeResourceName x == "") = false := fun x => by
    rw [beq_eq_false_iff_ne]
    exact SanitizeResourceName_ne_empty x
  refine ⟨fun group => ?_, fun gm policy => ?_, fun gm route => ?_,
    SanitizeResourceName_ne_empty⟩
  · simp [GroupsHandler.generateGroupResource, hbeq]
  · simp [PoliciesHandler.generatePolicyResource, hbeq]
  · simp [RoutesHandler.generateRouteResource, hbeq]

/-- C3, counterexample: `Sanitize("!") = "!"`, which does not match
`^[a-z0-9_]*$` — characters not handled by the replace/delete steps pass
through unchanged, so the output is not confined to `[a-z0-9_]`. -/
theorem C3_counterexample : matchesLowerCharset (SanitizeResourceName "!") = false := by
  have h : SanitizeResourceName "!" = "!" :=
    (sanitize_eval (u := "!".data) (by decide) (by decide)).trans (by decide)
  rw [h]
  decide

/-- C3, amended: for every string `s`, `Sanitize(s)` contains no `"__"`
substring, never starts with an ASCII digit (and is never empty), and every
character of it is fixed by the sanitizer's per-character steps — it is none
of the five replaced or four deleted characters and carries no upper-case
ASCII letter (`Char.toLower` fixes it); characters outside that set (other
punctuation, non-ASCII) pass through, so the output need not match
`^[a-z0-9_]*$`. -/
theorem C3_amended (s : String) :
    hasDD (SanitizeResourceName s).data = false ∧
    startsWithAsciiDigit (SanitizeResourceName s).data = false ∧
    (∀ c ∈ (SanitizeResourceName s).data, goodChar c) ∧
    (SanitizeResourceName s).data ≠ [] := by
  have H : SanOut (SanitizeResourceName s).data := sanitizeList_out s.data
  refine ⟨H.noDD, ?_, H.good, H.ne_nil⟩
  cases h : (SanitizeResourceName s).data with
  | nil => rfl
  | cons c rest =>
    have hd := H.headNoDigit c (by rw [h]; rfl)
    simp [startsWithAsciiDigit]
    omega

/-- C4, counterexample: in the `UsersGenerator` variant (`generators.go`
lines 248–250, an `if` with no `else`), the surviving user "bob" with
`IsBlocked=false` is emitted with no `is_blocked` key at all, refuting "the
key is never omitted". -/
theorem C4_counterexample :
    UsersGenerator.InitResourcesWithGroupMapping emptyMapping [bob] =
      [⟨"user", "bob",
        [("id", .str "u2"), ("is_service_user", .bool false),
         ("email", .str "bob@x.io"), ("name", .str "Bob")]⟩] ∧
    lookupAttr (UsersGenerator.generateUserResource emptyMapping bob).attrs "is_blocked" =
      none := by
  have hsan : SanitizeResourceName "Bob" = "bob" :=
    (sanitize_eval (u := "bob".data) (by decide) (by decide)).trans (by decide)
  constructor
  · simp [UsersGenerator.InitResourcesWithGroupMapping, UsersGenerator.processUser,
      UsersGenerator.generateUserResource, UsersGenerator.sanitizeResourceName, bob, hsan]
  · simp [UsersGenerator.generateUserResource, UsersGenerator.sanitizeResourceName, bob,
      hsan, lookupAttr, List.find?]

/-- C4, amended: the handler variant (`resources` package, the one `main`
wires up) always emits `is_blocked` with the record's explicit boolean, in
both states; the legacy `UsersGenerator` variant emits the key only when
`IsBlocked` is true and omits it when false. -/
theorem C4_amended (gm : Mapping) (user : User) :
    lookupAttr (UsersHandler.generateUserResource gm user).attrs "is_blocked" =
      some (.bool user.IsBlocked) ∧
    lookupAttr (UsersGenerator.generateUserResource gm user).attrs "is_blocked" =
      (if user.IsBlocked then some (.bool true) else none) := by
  constructor
  · simp only [UsersHandler.generateUserResource]
    repeat' split
    all_goals simp [lookupAttr, List.find?_append, List.find?]
    all_goals simp_all
  · simp only [UsersGenerator.generateUserResource]
    repeat' split
    all_goals simp [lookupAttr, List.find?_append, List.find?]
    all_goals simp_all

/-- C5: the sanitizer is idempotent — `Sanitize(Sanitize(s)) = Sanitize(s)`
for every string `s`.  Its output consists of characters fixed by every
per-character step, has no `"__"`, no edge underscores, no leading digit and
is non-empty, and on such strings every step of a second pass is the
identity. -/
theorem C5_sanitize_idempotent (s : String) :
    SanitizeResourceName (SanitizeResourceName s) = SanitizeResourceName s := by
  show (⟨sanitizeList (sanitizeList s.data)⟩ : String) = ⟨sanitizeList s.data⟩
  rw [sanitizeList_idem]

/-- C6: the user collector's exclusion filter emits a record iff its email is
non-empty, or it is a service user with non-empty email or non-empty name; in
particular a record with empty email that is not a service user produces no
resource, and a service user with empty email but non-empty name does. -/
theorem C6_user_filter (gm : Mapping) (user : User) :
    (UsersHandler.processUser gm user).isSome =
      (user.Email != "" || (user.IsServiceUser && (user.Email != "" || user.Name != ""))) := by
  unfold UsersHandler.processUser
  by_cases he : user.Email = "" <;> cases hs : user.IsServiceUser <;>
    by_cases hn : user.Name = "" <;> simp [he, hs, hn]

/-- C7: in every generated policy rule, each `Sources` (and `Destinations`)
entry yields exactly one reference string, in order — `netbird_group.<mapped
name>.id` when the entry's group ID is in the mapping, else the fallback
`netbird_group.<Sanitize(entry.Name)>.id`; entries are never dropped (the
output list is a `map` over the entries) and the fallback path is total, so
it can never make the collector return an error. -/
theorem C7_policy_group_refs (gm : Mapping) (rule : PolicyRule) :
    lookupAttr (PoliciesHandler.ruleAttrs gm rule) "sources" =
      (if rule.Sources.isEmpty then none
       else some (AttrValue.strList (rule.Sources.map fun source =>
        match gm source.ID with
        | some groupResourceName => CreateTerraformReference "group" groupResourceName
        | none => CreateTerraformReference "group" (SanitizeResourceName source.Name)))) ∧
    lookupAttr (PoliciesHandler.ruleAttrs gm rule) "destinations" =
      (if rule.Destinations.isEmpty then none
       else some (AttrValue.strList (rule.Destinations.map fun dest =>
        match gm dest.ID with
        | some groupResourceName => CreateTerraformReference "group" groupResourceName
        | none => CreateTerraformReference "group" (SanitizeResourceName dest.Name)))) := by
  constructor
  · dsimp only [PoliciesHandler.ruleAttrs]
    cases hsrc : rule.Sources with
    | nil =>
      repeat' split
      all_goals simp_all [lookupAttr, List.find?_append, List.find?]
    | cons a l =>
      rw [if_pos (by simp : (a :: l).length > 0)]
      have hemp : ((a :: l).isEmpty) = false := rfl
      rw [hemp]
      by_cases hp : rule.Ports.length > 0 <;>
        by_cases hpr : rule.PortRanges.length > 0 <;>
          [rw [if_pos hp, if_pos hpr]; rw [if_pos hp, if_neg hpr];
           rw [if_neg hp, if_pos hpr]; rw [if_neg hp, if_neg hpr]] <;>
        · rcases rule.SourceResource with _ | sres <;>
            rcases rule.DestinationResource with _ | dres <;>
              by_cases hd : rule.Destinations.length > 0 <;>
                simp [lookupAttr, List.find?_append, List.find?, hd]
  · dsimp only [PoliciesHandler.ruleAttrs]
    cases hdst : rule.Destinations with
    | nil =>
      rw [if_neg (by simp : ¬([] : List GroupInfo).length > 0)]
      by_cases hp : rule.Ports.length > 0 <;>
        by_cases hpr : rule.PortRanges.length > 0 <;>
          [rw [if_pos hp, if_pos hpr]; rw [if_pos hp, if_neg hpr];
           rw [if_neg hp, if_pos hpr]; rw [if_neg hp, if_neg hpr]] <;>
        · by_cases hs : rule.Sources.length > 0 <;>
            rcases rule.SourceResource with _ | sres <;>
              rcases rule.DestinationResource with _ | dres <;>
                simp [lookupAttr, List.find?_append, List.find?, hs]
    | cons a l =>
      rw [if_pos (by simp : (a :: l).length > 0)]
      have hemp : ((a :: l).isEmpty) = false := rfl
      rw [hemp]
      by_cases hp : rule.Ports.length > 0 <;>
        by_cases hpr : rule.PortRanges.length > 0 <;>
          [rw [if_pos hp, if_pos hpr]; rw [if_pos hp, if_neg hpr];
           rw [if_neg hp, if_pos hpr]; rw [if_neg hp, if_neg hpr]] <;>
        · by_cases hs : rule.Sources.length > 0 <;>
            rcases rule.SourceResource with _ | sres <;>
              rcases rule.DestinationResource with _ | dres <;>
                simp [lookupAttr, List.find?_append, List.find?, hs]

/-- C8: in every generated route, the `groups` (and `peer_groups`) attribute
is the order-preserving `filterMap` of the record's group-ID list through the
route-locally rebuilt mapping — an ID found there becomes
`netbird_group.<name>.id`, an absent ID is silently omitted (no placeholder,
no fallback). -/
theorem C8_route_group_refs (groups : List RouteGroup) (route : Route) :
    lookupAttr (RoutesHandler.generateRouteResource (RoutesHandler.buildGroupMapping groups)
        route).attrs "groups" =
      some (AttrValue.strList (route.Groups.filterMap fun groupID =>
        (RoutesHandler.buildGroupMapping groups groupID).map fun n =>
          CreateTerraformReference "group" n)) ∧
    lookupAttr (RoutesHandler.generateRouteResource (RoutesHandler.buildGroupMapping groups)
        route).attrs "peer_groups" =
      some (AttrValue.strList (route.PeerGroups.filterMap fun groupID =>
        (RoutesHandler.buildGroupMapping groups groupID).map fun n =>
          CreateTerraformReference "group" n)) := by
  constructor
  · unfold RoutesHandler.generateRouteResource
    simp [lookupAttr, List.find?]
  · unfold RoutesHandler.generateRouteResource
    simp [lookupAttr, List.find?]

/-- C9: a generated group carries the `resources` key iff some nested
resource entry has a non-empty ID; when present the value is the ordered list
of exactly the non-empty IDs, and otherwise the key is absent (never an empty
list). -/
theorem C9_group_resources_attr (group : Group) :
    lookupAttr (GroupsHandler.generateGroupResource group).attrs "resources" =
      (if (group.Resources.filterMap fun res => if res.ID != "" then some res.ID else none) = []
       then none
       else some (AttrValue.strList (group.Resources.filterMap fun res =>
         if res.ID != "" then some res.ID else none))) ∧
    ((lookupAttr (GroupsHandler.generateGroupResource group).attrs "resources").isSome ↔
      ∃ res ∈ group.Resources, res.ID ≠ "") := by
  have key : lookupAttr (GroupsHandler.generateGroupResource group).attrs "resources" =
      (if (group.Resources.filterMap fun res => if res.ID != "" then some res.ID else none) = []
       then none
       else some (AttrValue.strList (group.Resources.filterMap fun res =>
         if res.ID != "" then some res.ID else none))) := by
    dsimp only [GroupsHandler.generateGroupResource]
    by_cases h1 : group.Resources.length > 0
    · rw [if_pos h1]
      by_cases h2 : (group.Resources.filterMap fun res =>
          if res.ID != "" then some res.ID else none).length > 0
      · have h2' : (group.Resources.filterMap fun res =>
            if res.ID != "" then some res.ID else none) ≠ [] := by
          intro he
          rw [he] at h2
          simp at h2
        rw [if_pos h2, if_neg h2']
        simp [lookupAttr, List.find?]
      · have h2' : (group.Resources.filterMap fun res =>
            if res.ID != "" then some res.ID else none) = [] := by
          simpa using h2
        rw [if_neg h2, if_pos h2']
        simp [lookupAttr, List.find?]
    · have h1' : group.Resources = [] := by
        cases hr : group.Resources with
        | nil => rfl
        | cons a l => rw [hr] at h1; simp at h1
      have h2' : (group.Resources.filterMap fun res =>
          if res.ID != "" then some res.ID else none) = [] := by
        rw [h1']; rfl
      rw [if_neg h1, if_pos h2']
      simp [lookupAttr, List.find?]
  refine ⟨key, ?_⟩
  rw [key]
  by_cases h : (group.Resources.filterMap fun res =>
      if res.ID != "" then some res.ID else none) = []
  · rw [if_pos h]
    simp only [Option.isSome_none]
    rw [List.filterMap_eq_nil_iff] at h
    constructor
    · intro hfalse
      exact absurd hfalse (by simp)
    · intro ⟨res, hres, hid⟩
      have := h res hres
      rw [if_pos (by simp [hid])] at this
      exact Option.noConfusion this
  · rw [if_neg h]
    simp only [Option.isSome_some, true_iff]
    by_contra hno
    push_neg at hno
    apply h
    rw [List.filterMap_eq_nil_iff]
    intro res hres
    rw [if_neg (by simp [hno res hres])]

/-- C10: `EscapeString` is injective — because backslashes are doubled before
the quote, newline, and tab escapes are introduced, the four sequential
replacements act as a prefix code on characters, and `unescapeList` decodes
every escaped output back to its unique input. -/
theorem C10_escape_injective (s1 s2 : String) (h : EscapeString s1 = EscapeString s2) :
    s1 = s2 := by
  apply String.ext
  have hl : escapeList s1.data = escapeList s2.data := congrArg String.data h
  have h2 := congrArg unescapeList hl
  rwa [unescape_escapeList, unescape_escapeList] at h2

/-- C10, witness: the injectivity theorem applied at the concrete escaped
pair. -/
theorem C10_escape_injective_witness : ("a\n\\t" : String) = "a\n\\t" :=
  C10_escape_injective "a\n\\t" "a\n\\t" rfl

end NetbirdTf
